import Mathlib

/-!
Verification of the message-retention core of MessageLoggerPlus
(`shouldIgnore`, `reAddDeletedMessages`, `addToX` / `removeFromX` /
`addToXAndRemoveFromOpposite`), shallowly embedded from the TypeScript
source in `src/unnamed/part_000`.

Identifier lists are stored as comma-joined strings, so we first model the
JavaScript string primitives the source relies on (`split(",")`, `join(",")`,
`includes`, `trim`, `toLowerCase`) as executable Lean functions on `String`.
-/

namespace MLP

/-- Model of JavaScript `s.split(",")` at the character-list level:
splitting on `','`, always returning at least one (possibly empty) piece. -/
def splitCommaL : List Char → List (List Char)
  | [] => [[]]
  | c :: cs =>
    if c = ',' then [] :: splitCommaL cs
    else
      match splitCommaL cs with
      | [] => [[c]]
      | p :: ps => (c :: p) :: ps

/-- Model of JavaScript `s.split(",")` on strings. -/
def splitComma (s : String) : List String :=
  (splitCommaL s.data).map (fun l => ⟨l⟩)

/-- Model of JavaScript `items.join(",")` at the character-list level. -/
def joinCommaL : List (List Char) → List Char
  | [] => []
  | [x] => x
  | x :: xs => x ++ ',' :: joinCommaL xs

/-- Model of JavaScript `items.join(",")` on strings. -/
def joinComma (l : List String) : String :=
  ⟨joinCommaL (l.map String.data)⟩

/-- Auxiliary for substring search: `leadMatch sub l` holds when `sub` is a
leading segment of `l` (character-wise). -/
def leadMatch : List Char → List Char → Bool
  | [], _ => true
  | _ :: _, [] => false
  | a :: as, b :: bs => a == b && leadMatch as bs

/-- Auxiliary for substring search: `subMatch sub l` holds when `sub` occurs
contiguously somewhere inside `l`. -/
def subMatch : List Char → List Char → Bool
  | sub, [] => sub.isEmpty
  | sub, c :: cs => leadMatch sub (c :: cs) || subMatch sub cs

/-- Model of JavaScript `s.includes(sub)`: substring containment. -/
def strIncludes (s sub : String) : Bool :=
  subMatch sub.data s.data

/-- Model of JavaScript `s.trim()`: strip leading and trailing whitespace. -/
def jsTrim (s : String) : String :=
  ⟨((s.data.dropWhile Char.isWhitespace).reverse.dropWhile Char.isWhitespace).reverse⟩

/-- Model of JavaScript `s.toLowerCase()` (ASCII case folding). -/
def jsToLower (s : String) : String :=
  ⟨s.data.map Char.toLower⟩

/-- Model of JavaScript string coercion applied to a possibly-`undefined`
value, as in `whitelistedIds.includes(guildId!)`: `undefined` coerces to the
literal text `"undefined"`. -/
def jsOptStr : Option String → String
  | some s => s
  | none => "undefined"

/-! ## The retention policy evaluator `shouldIgnore` (source lines 105-277) -/

/-- The settings snapshot read from `settings.store` (source lines 119-131). -/
structure SettingsStore where
  whitelistedIds : String
  blacklistedIds : String
  blacklistedWords : String
  alwaysLogDirectMessages : Bool
  alwaysLogCurrentChannel : Bool
  ignoreBots : Bool
  ignoreSelf : Bool
  ignoreMutedGuilds : Bool
  ignoreMutedCategories : Bool
  ignoreMutedChannels : Bool
  cacheMessagesFromServers : Bool

/-- The external stores `shouldIgnore` queries: the current user's id
(`UserStore.getCurrentUser().id`), the DM predicate
(`ChannelStore.getChannel(channelId)?.isDM?.()`) and the three mute
predicates of `UserGuildSettingsStore`. -/
structure Env where
  myId : String
  isDM : String → Bool
  isMuted : Option String → Bool
  isCategoryMuted : Option String → String → Bool
  isChannelMuted : Option String → String → Bool

/-- The `ShouldIgnoreArguments` record (source lines 82-91). Optional fields
of the TypeScript interface that are used only as truthy tests
(`ghostPinged`, `isCachedByUs`) are modelled as `Bool` (with `undefined`
falsy); `guildId` and `content` keep their optionality. -/
structure ShouldIgnoreArgs where
  channelId : String
  authorId : String
  guildId : Option String
  flags : Nat
  bot : Bool
  ghostPinged : Bool
  isCachedByUs : Bool
  content : Option String

/-- Source line 93: `const EPHEMERAL = 64`. -/
def EPHEMERAL : Nat := 64

/-- Source line 115: `((flags ?? 0) & EPHEMERAL) === EPHEMERAL`. -/
def isEphemeral (a : ShouldIgnoreArgs) : Bool :=
  a.flags &&& EPHEMERAL == EPHEMERAL

/-- Source line 133 and the `ids.includes(e)` test of lines 134-139:
whether a candidate entry `e` equals one of
`[authorId, channelId, guildId]`. A piece produced by `split` is never
`undefined`, so a missing `guildId` simply never matches. -/
def idsMatch (a : ShouldIgnoreArgs) (e : String) : Bool :=
  e == a.authorId || e == a.channelId || some e == a.guildId

/-- Source lines 134-136: `whitelistedIds.split(",").some(e => ids.includes(e))`. -/
def isWhitelisted (st : SettingsStore) (a : ShouldIgnoreArgs) : Bool :=
  (splitComma st.whitelistedIds).any (idsMatch a)

/-- Source lines 137-139: `blacklistedIds.split(",").some(e => ids.includes(e))`. -/
def isBlacklisted (st : SettingsStore) (a : ShouldIgnoreArgs) : Bool :=
  (splitComma st.blacklistedIds).any (idsMatch a)

/-- Source line 140: `whitelistedIds.includes(authorId!)` — substring test. -/
def isAuthorWhitelisted (st : SettingsStore) (a : ShouldIgnoreArgs) : Bool :=
  strIncludes st.whitelistedIds a.authorId

/-- Source line 141: `whitelistedIds.includes(channelId!)` — substring test. -/
def isChannelWhitelisted (st : SettingsStore) (a : ShouldIgnoreArgs) : Bool :=
  strIncludes st.whitelistedIds a.channelId

/-- Source line 142: `whitelistedIds.includes(guildId!)` — substring test;
an absent `guildId` is coerced to the text `"undefined"` by JavaScript. -/
def isGuildWhitelisted (st : SettingsStore) (a : ShouldIgnoreArgs) : Bool :=
  strIncludes st.whitelistedIds (jsOptStr a.guildId)

/-- Source line 143: `blacklistedIds.includes(authorId!)` — substring test. -/
def isAuthorBlacklisted (st : SettingsStore) (a : ShouldIgnoreArgs) : Bool :=
  strIncludes st.blacklistedIds a.authorId

/-- Source line 144: `blacklistedIds.includes(channelId!)` — substring test. -/
def isChannelBlacklisted (st : SettingsStore) (a : ShouldIgnoreArgs) : Bool :=
  strIncludes st.blacklistedIds a.channelId

/-- Source line 146: `blacklistedWords.split(',').map(w =>
w.trim().toLowerCase()).filter(w => w.length > 0)`. -/
def blackListedWords (st : SettingsStore) : List String :=
  (((splitComma st.blacklistedWords).map (fun w => jsToLower (jsTrim w))).filter
    (fun w => decide (0 < w.length)))

/-- Source line 148: `content && blackListedWords.some(w =>
content.trim().toLowerCase().includes(w))`; an absent or empty `content` is
falsy and short-circuits to false. -/
def contentBlacklisted (st : SettingsStore) (content : Option String) : Bool :=
  match content with
  | none => false
  | some c => c != "" && (blackListedWords st).any (fun w => strIncludes (jsToLower (jsTrim c)) w)

/-- The retention policy evaluator, source lines 105-277. The source hoists
the membership flags into local `const`s before the rule chain; all of them
are pure, so referring to the named definitions above inside the chain is
equivalent. The diagnostic `Flogger.log` calls are side effects with no
influence on the result and are not modelled. In rules 11 and 12 the source
guard `channelId != null` is always true, since `channelId` is a required
string argument. -/
def shouldIgnore (env : Env) (st : SettingsStore) (a : ShouldIgnoreArgs) : Bool :=
  if isEphemeral a then true
  else if contentBlacklisted st a.content then true
  else if st.ignoreSelf && (a.authorId == env.myId) then true
  else if st.alwaysLogDirectMessages && env.isDM a.channelId then false
  else if st.ignoreBots && a.bot && !(isAuthorWhitelisted st a) then true
  else if a.ghostPinged then false
  else if isAuthorWhitelisted st a || isChannelWhitelisted st a || isWhitelisted st a
      || st.alwaysLogCurrentChannel then false
  else if isAuthorBlacklisted st a || isChannelBlacklisted st a || isBlacklisted st a then true
  else if a.isCachedByUs && !st.cacheMessagesFromServers && a.guildId.isSome
      && !(isGuildWhitelisted st a) then true
  else if a.guildId.isSome && st.ignoreMutedGuilds && env.isMuted a.guildId then true
  else if st.ignoreMutedCategories && env.isCategoryMuted a.guildId a.channelId then true
  else if st.ignoreMutedChannels && env.isChannelMuted a.guildId a.channelId then true
  else false

/-! ## List maintenance (source lines 279-303) -/

/-- Source line 279: `type ListType = "blacklistedIds" | "whitelistedIds"`. -/
inductive ListType where
  | blacklistedIds : ListType
  | whitelistedIds : ListType
deriving DecidableEq

/-- Reading `settings.store[list]`. -/
def getList (st : SettingsStore) : ListType → String
  | .blacklistedIds => st.blacklistedIds
  | .whitelistedIds => st.whitelistedIds

/-- Writing `settings.store[list] = s`. -/
def setList (st : SettingsStore) : ListType → String → SettingsStore
  | .blacklistedIds, s => { st with blacklistedIds := s }
  | .whitelistedIds, s => { st with whitelistedIds := s }

/-- Source lines 282-283: `list === "blacklistedIds" ? "whitelistedIds" :
"blacklistedIds"`. -/
def opposite : ListType → ListType
  | .blacklistedIds => .whitelistedIds
  | .whitelistedIds => .blacklistedIds

/-- Source lines 290 and 297: `settings.store[list] ?
settings.store[list].split(",") : []` — the empty string is falsy, so an
empty stored list parses to no entries rather than to `[""]`. -/
def listElems (s : String) : List String :=
  if s == "" then [] else splitComma s

/-- Source lines 298-301: look up the first index of `id` with `indexOf` and,
when found, remove that single occurrence with `splice(index, 1)`. -/
def jsRemoveFirst (items : List String) (id : String) : List String :=
  match items.findIdx? (fun x => x == id) with
  | some i => items.eraseIdx i
  | none => items

/-- Source lines 289-294: `addToX`. -/
def addToX (st : SettingsStore) (list : ListType) (id : String) : SettingsStore :=
  setList st list (joinComma (listElems (getList st list) ++ [id]))

/-- Source lines 296-303: `removeFromX`. -/
def removeFromX (st : SettingsStore) (list : ListType) (id : String) : SettingsStore :=
  setList st list (joinComma (jsRemoveFirst (listElems (getList st list)) id))

/-- Source lines 281-287: `addToXAndRemoveFromOpposite` first removes `id`
from the opposite list, then appends it to the named list. -/
def addToXAndRemoveFromOpposite (st : SettingsStore) (list : ListType) (id : String) :
    SettingsStore :=
  addToX (removeFromX st (opposite list) id) list id

/-! ## The deleted-message reconciler `reAddDeletedMessages` (source lines 37-80)

Message ids are decimal strings fed through `parseInt`; we model them
directly as the resulting integers. The derived time is computed in exact
rational arithmetic, mirroring the source expression
`parseInt(id) / 4194304 + DISCORD_EPOCH` (which performs plain division,
with no rounding step in the expression). -/

/-- A live (or re-inserted) message, reduced to the only field the
reconciler inspects: its id. -/
structure Msg where
  id : ℤ
deriving DecidableEq

/-- An entry of the `loggedMessages` store: an optionally cached message
body (`absence of message means the body was not retained`). -/
structure LoggedRecord where
  message : Option Msg
deriving DecidableEq

/-- Source line 33-36: `interface Id { id: string; time: number }`. -/
structure TimedId where
  id : ℤ
  time : ℚ
deriving DecidableEq

/-- Source line 37: `DISCORD_EPOCH = 14200704e5`. -/
def DISCORD_EPOCH : ℚ := 14200704e5

/-- The snowflake-to-time expression inlined twice in the source (lines 50
and 56): `parseInt(id) / 4194304 + DISCORD_EPOCH`, as exact division. -/
def snowTime (id : ℤ) : ℚ :=
  (id : ℚ) / 4194304 + DISCORD_EPOCH

/-- Stable insertion into an already sorted list: the new element goes after
every existing element `y` with `le y x`. -/
def sInsert (le : TimedId → TimedId → Bool) (x : TimedId) :
    List TimedId → List TimedId
  | [] => [x]
  | y :: ys => if le y x then y :: sInsert le x ys else x :: y :: ys

/-- Model of JavaScript `Array.prototype.sort` with a numeric comparator
(stable, as required since ES2019): a stable insertion sort with respect to
the comparator's induced order. -/
def stableSort (le : TimedId → TimedId → Bool) (l : List TimedId) : List TimedId :=
  l.foldl (fun acc x => sInsert le x acc) []

/-- Modelled from the spec: the helper `findLastIndex` is imported from
`./misc`, which is not present under `src/`. Per the spec it returns the
last (largest) index whose element satisfies the predicate; the `-1`
failure sentinel is modelled as `none`. -/
def findLastIdx (l : List TimedId) (p : TimedId → Bool) : Option Nat :=
  match l.reverse.findIdx? p with
  | none => none
  | some j => some (l.length - 1 - j)

/-- Model of JavaScript `l.slice(a, b)` for non-negative bounds. -/
def sliceJS (l : List TimedId) (a b : Nat) : List TimedId :=
  (l.drop a).take (b - a)

/-- Model of JavaScript `arr.splice(i, 0, x)`: insert `x` at index `i`,
clamping `i` to the array length. -/
def spliceIns (l : List Msg) (i : Nat) (x : Msg) : List Msg :=
  l.take i ++ x :: l.drop i

/-- Source lines 48-51: the `IDs` array of timed records of the live
messages, in their given order. -/
def liveIDs (messages : List Msg) : List TimedId :=
  messages.map (fun m => ⟨m.id, snowTime m.id⟩)

/-- Source lines 52-58: the `savedIDs` array — deleted ids that have a
`loggedMessages` record, timed, then sorted ascending by time. -/
def mkSavedIDs (logged : ℤ → Option LoggedRecord) (deletedMessages : List ℤ) :
    List TimedId :=
  stableSort (fun a b => decide (a.time ≤ b.time))
    ((deletedMessages.filter (fun id => (logged id).isSome)).map
      (fun id => ⟨id, snowTime id⟩))

/-- Source lines 62-64: `lowestIDX`, with the `findIndex` failure sentinel
`-1` modelled as `none`. -/
def lowBound (channelEnd : Bool) (savedIDs : List TimedId) (lowestTime : ℚ) : Option Nat :=
  if channelEnd then some 0
  else savedIDs.findIdx? (fun e => decide (lowestTime < e.time))

/-- Source lines 66-68: `highestIDX`, with the failure sentinel `-1`
modelled as `none`. -/
def highBound (channelStart : Bool) (savedIDs : List TimedId) (highestTime : ℚ) : Option Nat :=
  if channelStart then some (savedIDs.length - 1)
  else findLastIdx savedIDs (fun e => decide (e.time < highestTime))

/-- Source lines 73-79: the splice loop. It walks `reAddIDs` by index `i`;
an entry whose id is already in `messages` is skipped, otherwise the cached
body (when present) is spliced into `messages` at index `i`. The `none`
branch of the record lookup is unreachable on the source's inputs (every
non-live entry of `reAddIDs` was filtered to have a record) and is modelled
as a skip. -/
def reAddLoop (logged : ℤ → Option LoggedRecord) :
    List TimedId → Nat → List Msg → List Msg
  | [], _, messages => messages
  | t :: rest, i, messages =>
    if messages.any (fun e => e.id == t.id) then
      reAddLoop logged rest (i + 1) messages
    else
      match logged t.id with
      | some record =>
        match record.message with
        | some m => reAddLoop logged rest (i + 1) (spliceIns messages i m)
        | none => reAddLoop logged rest (i + 1) messages
      | none => reAddLoop logged rest (i + 1) messages

/-- Source lines 38-80: `reAddDeletedMessages`. The in-place mutation of
`messages` is modelled by returning the final list; every early `return`
returns the input unchanged. The source binds `IDs`, `savedIDs`,
`lowestTime` and `highestTime` as local `const`s; they are pure, so they
are expanded in place here. `IDs` is nonempty in the branches that read
its first and last element, so the `getLastD` and `headD` defaults are
never the values actually read. -/
def reAddDeletedMessages (logged : ℤ → Option LoggedRecord) (messages : List Msg)
    (deletedMessages : List ℤ) (channelStart channelEnd : Bool) : List Msg :=
  if messages.isEmpty || deletedMessages.isEmpty then messages
  else if (mkSavedIDs logged deletedMessages).isEmpty then messages
  else
    match lowBound channelEnd (mkSavedIDs logged deletedMessages)
        ((liveIDs messages).getLastD ⟨0, 0⟩).time with
    | none => messages
    | some lowestIDX =>
      match highBound channelStart (mkSavedIDs logged deletedMessages)
          ((liveIDs messages).headD ⟨0, 0⟩).time with
      | none => messages
      | some highestIDX =>
        reAddLoop logged
          (stableSort (fun a b => decide (b.time ≤ a.time))
            (sliceJS (mkSavedIDs logged deletedMessages) lowestIDX (highestIDX + 1)
              ++ liveIDs messages))
          0 messages

/-! ## Concrete fixtures used by witnesses and counterexamples -/

/-- An environment in which the current user is `"me"`, no channel is a DM
and nothing is muted. -/
def env0 : Env :=
  ⟨"me", fun _ => false, fun _ => false, fun _ _ => false, fun _ _ => false⟩

/-- An environment like `env0` in which every channel is a DM. -/
def envDM : Env :=
  { env0 with isDM := fun _ => true }

/-- A settings snapshot with empty lists and every toggle off. -/
def st0 : SettingsStore :=
  ⟨"", "", "", false, false, false, false, false, false, false, false⟩

/-- A plain message context: a non-self author, no guild, no flags, not a
bot, no content. -/
def a0 : ShouldIgnoreArgs :=
  ⟨"chan", "auth", none, 0, false, false, false, none⟩

/-- Settings whose whitelist and blacklist both contain the guild `"g1"`. -/
def st1 : SettingsStore :=
  { st0 with whitelistedIds := "g1", blacklistedIds := "g1" }

/-- A context in guild `"g1"`. -/
def a1 : ShouldIgnoreArgs :=
  { a0 with guildId := some "g1" }

/-- A context whose flags carry the ephemeral bit. -/
def a2 : ShouldIgnoreArgs :=
  { a0 with flags := 64 }

/-- Settings with `ignoreSelf` set and the current user whitelisted. -/
def st3 : SettingsStore :=
  { st0 with whitelistedIds := "me", ignoreSelf := true }

/-- A context authored by the current user of `env0`. -/
def a3 : ShouldIgnoreArgs :=
  { a0 with authorId := "me" }

/-- Settings with `alwaysLogDirectMessages` set and one blacklisted word. -/
def stDM : SettingsStore :=
  { st0 with alwaysLogDirectMessages := true, blacklistedWords := "badword" }

/-- Settings like `stDM` with `ignoreSelf` also set. -/
def stDMSelf : SettingsStore :=
  { stDM with ignoreSelf := true }

/-- A context whose content contains the blacklisted word of `stDM`. -/
def a4w : ShouldIgnoreArgs :=
  { a0 with content := some "spam Badword here" }

/-- Settings whose whitelist is the single entry `"1234567890"` and with
`ignoreBots` set. -/
def st10 : SettingsStore :=
  { st0 with whitelistedIds := "1234567890", ignoreBots := true }

/-- A bot context whose author id `"345678"` is a proper substring of the
whitelist entry `"1234567890"` without being an element of the list. -/
def a10 : ShouldIgnoreArgs :=
  { a0 with authorId := "345678", bot := true }

/-- Settings whose blacklist contains the id `"1"` twice. -/
def stC6dup : SettingsStore :=
  { st0 with blacklistedIds := "1,1" }

/-- Settings whose blacklist contains the id `"7"` exactly once. -/
def stC6w : SettingsStore :=
  { st0 with blacklistedIds := "7" }

/-- The id whose derived time is exactly the rational `t`:
`snowTime (idFor t) = t`. -/
def idFor (t : ℤ) : ℤ :=
  (t - 1420070400000) * 4194304

/-- The live page of the reconciler-ordering scenario: two messages in
newest-first order with derived times `300` and `200`. -/
def messages7 : List Msg :=
  [⟨idFor 300⟩, ⟨idFor 200⟩]

/-- The deleted ids of the reconciler-ordering scenario: one id with
derived time `250`. -/
def deleted7 : List ℤ :=
  [idFor 250]

/-- The logged-message store of the reconciler-ordering scenario: the
deleted id has a cached body. -/
def logged7 : ℤ → Option LoggedRecord :=
  fun i => if i = idFor 250 then some ⟨some ⟨idFor 250⟩⟩ else none

/-! ## Claims about `shouldIgnore` -/

/-- C2: a message context whose flags have bit 64 set is always ignored:
the ephemeral check precedes every other rule, regardless of whitelist,
blacklist or any settings toggle. -/
theorem ephemeral_always_ignored (env : Env) (st : SettingsStore) (a : ShouldIgnoreArgs)
    (h : a.flags &&& EPHEMERAL = EPHEMERAL) :
    shouldIgnore env st a = true := by
  simp [shouldIgnore, isEphemeral, h]

/-- Witness for C2: a context with flags 64, evaluated against a fully
whitelisted state, is still ignored. -/
theorem ephemeral_always_ignored_w :
    a2.flags &&& EPHEMERAL = EPHEMERAL ∧ shouldIgnore env0 st1 a2 = true :=
  ⟨by decide, ephemeral_always_ignored env0 st1 a2 (by decide)⟩

/-- C1: when no earlier rule has decided (not ephemeral, no blacklisted
word in the content, not self with `ignoreSelf`, not the DM keep rule, not
a non-whitelisted bot with `ignoreBots`, not ghost-pinged) and one of
{author, channel, guild} is an element of the whitelist, `shouldIgnore`
keeps the message — even when ids are also in the blacklist, since the
whitelist check is evaluated before the blacklist check. -/
theorem whitelist_precedes_blacklist (env : Env) (st : SettingsStore) (a : ShouldIgnoreArgs)
    (h1 : isEphemeral a = false)
    (h2 : contentBlacklisted st a.content = false)
    (h3 : (st.ignoreSelf && (a.authorId == env.myId)) = false)
    (h4 : (st.alwaysLogDirectMessages && env.isDM a.channelId) = false)
    (h5 : (st.ignoreBots && a.bot && !(isAuthorWhitelisted st a)) = false)
    (h6 : a.ghostPinged = false)
    (hw : isWhitelisted st a = true) :
    shouldIgnore env st a = false := by
  simp [shouldIgnore, h1, h2, h3, h4, h5, h6, hw]

/-- Witness for C1: guild `"g1"` is an element of both the whitelist and
the blacklist; the message is kept. -/
theorem whitelist_precedes_blacklist_w :
    isWhitelisted st1 a1 = true ∧ isBlacklisted st1 a1 = true ∧
      shouldIgnore env0 st1 a1 = false :=
  ⟨by decide, by decide,
    whitelist_precedes_blacklist env0 st1 a1 (by decide) (by decide) (by decide)
      (by decide) (by decide) (by decide) (by decide)⟩

/-- C3: with `ignoreSelf` set and the author equal to the current user, a
non-ephemeral message without blacklisted words is ignored, even when the
author, channel or guild is whitelisted: the self check runs before the
whitelist check. -/
theorem self_precedes_whitelist (env : Env) (st : SettingsStore) (a : ShouldIgnoreArgs)
    (h1 : isEphemeral a = false)
    (h2 : contentBlacklisted st a.content = false)
    (hs : st.ignoreSelf = true)
    (ha : a.authorId = env.myId) :
    shouldIgnore env st a = true := by
  simp [shouldIgnore, h1, h2, hs, ha]

/-- Witness for C3: the current user `"me"` is whitelisted, yet the
self-authored message is ignored. -/
theorem self_precedes_whitelist_w :
    isAuthorWhitelisted st3 a3 = true ∧ shouldIgnore env0 st3 a3 = true :=
  ⟨by decide,
    self_precedes_whitelist env0 st3 a3 (by decide) (by decide) (by decide) (by decide)⟩

/-- C4: with `alwaysLogDirectMessages` set and a DM channel, the message is
kept once the three earlier rules have not fired, short-circuiting every
later rule; but the ephemeral, blacklisted-word and self rules are
evaluated before the DM rule, so a DM that is ephemeral, contains a
blacklisted word, or is self-authored under `ignoreSelf` is still ignored. -/
theorem dm_override_order :
    (∀ (env : Env) (st : SettingsStore) (a : ShouldIgnoreArgs),
      st.alwaysLogDirectMessages = true → env.isDM a.channelId = true →
      isEphemeral a = false → contentBlacklisted st a.content = false →
      (st.ignoreSelf && (a.authorId == env.myId)) = false →
      shouldIgnore env st a = false) ∧
    (∀ (env : Env) (st : SettingsStore) (a : ShouldIgnoreArgs),
      st.alwaysLogDirectMessages = true → env.isDM a.channelId = true →
      isEphemeral a = false → contentBlacklisted st a.content = true →
      shouldIgnore env st a = true) ∧
    (∀ (env : Env) (st : SettingsStore) (a : ShouldIgnoreArgs),
      st.alwaysLogDirectMessages = true → env.isDM a.channelId = true →
      isEphemeral a = true → shouldIgnore env st a = true) ∧
    (∀ (env : Env) (st : SettingsStore) (a : ShouldIgnoreArgs),
      st.alwaysLogDirectMessages = true → env.isDM a.channelId = true →
      isEphemeral a = false → contentBlacklisted st a.content = false →
      st.ignoreSelf = true → a.authorId = env.myId →
      shouldIgnore env st a = true) := by
  refine ⟨?_, ?_, ?_, ?_⟩ <;> intros <;> simp [shouldIgnore, *]

/-- Witness for C4: in a DM, a plain message is kept, while a message with
a blacklisted word, an ephemeral message and a self-authored message are
each ignored. -/
theorem dm_override_order_w :
    shouldIgnore envDM stDM a0 = false ∧
      shouldIgnore envDM stDM a4w = true ∧
      shouldIgnore envDM stDM a2 = true ∧
      shouldIgnore envDM stDMSelf a3 = true :=
  ⟨dm_override_order.1 envDM stDM a0 (by decide) (by decide) (by decide) (by decide)
      (by decide),
    dm_override_order.2.1 envDM stDM a4w (by decide) (by decide) (by decide) (by decide),
    dm_override_order.2.2.1 envDM stDM a2 (by decide) (by decide) (by decide),
    dm_override_order.2.2.2 envDM stDMSelf a3 (by decide) (by decide) (by decide)
      (by decide) (by decide) (by decide)⟩

/-- C10: the per-entity membership checks are substring tests on the raw
comma-joined whitelist string: the author id `"345678"` is a proper
substring of the single whitelist entry `"1234567890"` and is not an
element of the split list, yet the author counts as whitelisted, and this
bot author passes the `ignoreBots` rule and the message is kept. -/
theorem membership_is_substring :
    isAuthorWhitelisted st10 a10 = true ∧
      (splitComma st10.whitelistedIds).contains a10.authorId = false ∧
      st10.ignoreBots = true ∧ a10.bot = true ∧
      shouldIgnore env0 st10 a10 = false := by
  decide

/-! ## Lemmas about the comma-join list encoding -/

theorem joinCommaL_single (x : List Char) : joinCommaL [x] = x := rfl

theorem joinCommaL_cons2 (x y : List Char) (ys : List (List Char)) :
    joinCommaL (x :: y :: ys) = x ++ ',' :: joinCommaL (y :: ys) := rfl

theorem splitCommaL_ne_nil (l : List Char) : splitCommaL l ≠ [] := by
  induction l with
  | nil => simp [splitCommaL]
  | cons c cs ih =>
    simp only [splitCommaL]
    split
    · simp
    · split
      · simp
      · simp

theorem mem_splitCommaL {l p : List Char} (hp : p ∈ splitCommaL l) : ',' ∉ p := by
  induction l generalizing p with
  | nil =>
    simp only [splitCommaL, List.mem_singleton] at hp
    subst hp; simp
  | cons c cs ih =>
    by_cases hc : c = ','
    · rw [show splitCommaL (c :: cs) = [] :: splitCommaL cs by
        simp only [splitCommaL, if_pos hc]] at hp
      rcases List.mem_cons.mp hp with h | h
      · subst h; simp
      · exact ih h
    · simp only [splitCommaL, if_neg hc] at hp
      cases hsp : splitCommaL cs with
      | nil => exact absurd hsp (splitCommaL_ne_nil cs)
      | cons q qs =>
        rw [hsp] at hp
        rcases List.mem_cons.mp hp with h | h
        · subst h
          intro hmem
          rcases List.mem_cons.mp hmem with h2 | h2
          · exact hc h2.symm
          · have hq : q ∈ splitCommaL cs := by
              rw [hsp]; exact List.mem_cons_self q qs
            exact ih hq h2
        · have hpin : p ∈ splitCommaL cs := by
            rw [hsp]; exact List.mem_cons_of_mem q h
          exact ih hpin

theorem splitCommaL_no_comma {x : List Char} (h : ',' ∉ x) : splitCommaL x = [x] := by
  induction x with
  | nil => rfl
  | cons c cs ih =>
    have hc : c ≠ ',' := fun hcc => h (hcc ▸ List.mem_cons_self c cs)
    have hcs : ',' ∉ cs := fun hm => h (List.mem_cons_of_mem c hm)
    simp only [splitCommaL, if_neg hc]
    rw [ih hcs]

theorem splitCommaL_append {x : List Char} (r : List Char) (h : ',' ∉ x) :
    splitCommaL (x ++ ',' :: r) = x :: splitCommaL r := by
  induction x with
  | nil => simp [splitCommaL]
  | cons c cs ih =>
    have hc : c ≠ ',' := fun hcc => h (hcc ▸ List.mem_cons_self c cs)
    have hcs : ',' ∉ cs := fun hm => h (List.mem_cons_of_mem c hm)
    have hstep := ih hcs
    simp only [List.cons_append, splitCommaL, if_neg hc, List.append_eq] at hstep ⊢
    rw [hstep]

theorem splitCommaL_joinCommaL {ps : List (List Char)}
    (hp : ∀ p ∈ ps, ',' ∉ p) (hne : ps ≠ []) :
    splitCommaL (joinCommaL ps) = ps := by
  induction ps with
  | nil => exact absurd rfl hne
  | cons x xs ih =>
    cases xs with
    | nil =>
      rw [joinCommaL_single]
      exact splitCommaL_no_comma (hp x (List.mem_cons_self x []))
    | cons y ys =>
      have hx : ',' ∉ x := hp x (List.mem_cons_self _ _)
      have hrest : ∀ p ∈ y :: ys, ',' ∉ p := fun p hm => hp p (List.mem_cons_of_mem _ hm)
      rw [joinCommaL_cons2, splitCommaL_append _ hx, ih hrest (by simp)]

theorem data_eq_nil_iff {s : String} : s.data = [] ↔ s = "" := by
  constructor
  · intro h; cases s; subst h; rfl
  · intro h; subst h; rfl

theorem map_mk_data (L : List String) :
    (L.map String.data).map (fun l => (⟨l⟩ : String)) = L := by
  induction L with
  | nil => rfl
  | cons a as ih =>
    simp only [List.map_cons]
    rw [ih]

theorem splitComma_joinComma {L : List String}
    (h : ∀ s ∈ L, ',' ∉ s.data) (hne : L ≠ []) :
    splitComma (joinComma L) = L := by
  unfold splitComma joinComma
  have hp : ∀ p ∈ L.map String.data, ',' ∉ p := by
    intro p hpm
    rcases List.mem_map.mp hpm with ⟨s, hs, rfl⟩
    exact h s hs
  have hmapne : L.map String.data ≠ [] := by
    simpa [List.map_eq_nil_iff] using hne
  rw [show ((⟨joinCommaL (L.map String.data)⟩ : String)).data
        = joinCommaL (L.map String.data) from rfl]
  rw [splitCommaL_joinCommaL hp hmapne]
  exact map_mk_data L

theorem joinComma_ne_empty {L : List String} {s : String}
    (hm : s ∈ L) (hs : s ≠ "") : joinComma L ≠ "" := by
  intro hEq
  have hdata : joinCommaL (L.map String.data) = [] := by
    have := congrArg String.data hEq
    simpa using this
  have hsd : s.data ≠ [] := fun hd => hs (data_eq_nil_iff.mp hd)
  have hmem : s.data ∈ L.map String.data := List.mem_map_of_mem _ hm
  cases hL : L.map String.data with
  | nil => rw [hL] at hmem; cases hmem
  | cons x xs =>
    rw [hL] at hdata hmem
    cases xs with
    | nil =>
      rw [joinCommaL_single] at hdata
      rcases List.mem_singleton.mp hmem with rfl
      exact hsd hdata
    | cons y ys =>
      rw [joinCommaL_cons2] at hdata
      simp at hdata

theorem mem_listElems_no_comma {s x : String} (h : x ∈ listElems s) : ',' ∉ x.data := by
  unfold listElems at h
  split at h
  · cases h
  · unfold splitComma at h
    rcases List.mem_map.mp h with ⟨p, hp, rfl⟩
    exact mem_splitCommaL hp

theorem jsRemoveFirst_cons (x : String) (xs : List String) (id : String) :
    jsRemoveFirst (x :: xs) id = if x == id then xs else x :: jsRemoveFirst xs id := by
  unfold jsRemoveFirst
  rw [List.findIdx?_cons]
  by_cases hx : (x == id) = true
  · rw [if_pos hx, if_pos hx]
    rfl
  · rw [if_neg hx, if_neg hx, List.findIdx?_succ]
    cases hfi : List.findIdx? (fun a => a == id) xs with
    | none => rfl
    | some j => rfl

theorem not_mem_jsRemoveFirst {items : List String} {id : String}
    (h : items.count id ≤ 1) : id ∉ jsRemoveFirst items id := by
  induction items with
  | nil =>
    unfold jsRemoveFirst
    simp [List.findIdx?]
  | cons x xs ih =>
    rw [jsRemoveFirst_cons]
    by_cases hx : (x == id) = true
    · rw [if_pos hx]
      have hxid : x = id := eq_of_beq hx
      subst hxid
      have hz : xs.count x = 0 := by
        have hc := List.count_cons_self x xs
        rw [hc] at h
        omega
      exact List.count_eq_zero.mp hz
    · rw [if_neg hx]
      intro hm
      rcases List.mem_cons.mp hm with h1 | h1
      · exact hx (h1 ▸ (beq_iff_eq.mpr rfl))
      · have hcount : xs.count id ≤ 1 := by
          have hc := List.count_cons id x xs
          rw [hc, if_neg hx] at h
          simpa using h
        exact ih hcount h1

theorem mem_of_jsRemoveFirst {items : List String} {id x : String}
    (h : x ∈ jsRemoveFirst items id) : x ∈ items := by
  unfold jsRemoveFirst at h
  split at h
  · exact (List.eraseIdx_sublist items _).subset h
  · exact h

theorem getList_setList_same (st : SettingsStore) (l : ListType) (s : String) :
    getList (setList st l s) l = s := by
  cases l <;> rfl

theorem getList_setList_opp_read (st : SettingsStore) (l : ListType) (s : String) :
    getList (setList st (opposite l) s) l = getList st l := by
  cases l <;> rfl

theorem getList_setList_read_opp (st : SettingsStore) (l : ListType) (s : String) :
    getList (setList st l s) (opposite l) = getList st (opposite l) := by
  cases l <;> rfl

/-! ## Claims about the list maintenance operations -/

/-- Counterexample for C6 as stated for every prior state and every id:
with the blacklist holding `"1"` twice, `addToXAndRemoveFromOpposite`
removes only the first occurrence, so `"1"` ends up in both
lists; a comma-carrying id is not an element of the list it was added to
after the join/split round trip; and the empty id added over an empty list
is not an element of the (still empty) named list. -/
theorem addRemove_invariant_fails :
    (("1" ∈ listElems (addToXAndRemoveFromOpposite stC6dup ListType.whitelistedIds
          "1").whitelistedIds) ∧
      ("1" ∈ listElems (addToXAndRemoveFromOpposite stC6dup ListType.whitelistedIds
          "1").blacklistedIds)) ∧
    ("7,8" ∉ listElems (addToXAndRemoveFromOpposite st0 ListType.whitelistedIds
        "7,8").whitelistedIds) ∧
    ("" ∉ listElems (addToXAndRemoveFromOpposite st0 ListType.whitelistedIds
        "").whitelistedIds) := by
  decide

/-- C6 (amended): for every nonempty, comma-free id and every prior state
whose opposite list holds the id at most once, after
`addToXAndRemoveFromOpposite(list, id)` the id is an element of the named
list and not an element of the opposite list (hence never in both lists
simultaneously). -/
theorem addRemove_invariant_amended (st : SettingsStore) (list : ListType) (id : String)
    (hne : id ≠ "") (hcf : ',' ∉ id.data)
    (hcount : (listElems (getList st (opposite list))).count id ≤ 1) :
    id ∈ listElems (getList (addToXAndRemoveFromOpposite st list id) list) ∧
      id ∉ listElems (getList (addToXAndRemoveFromOpposite st list id) (opposite list)) := by
  unfold addToXAndRemoveFromOpposite addToX removeFromX
  constructor
  · rw [getList_setList_same, getList_setList_opp_read]
    set items := listElems (getList st list) with hitems
    have hpieces : ∀ x ∈ items ++ [id], ',' ∉ x.data := by
      intro x hx
      rcases List.mem_append.mp hx with hxi | hxi
      · exact mem_listElems_no_comma (hitems ▸ hxi)
      · rcases List.mem_singleton.mp hxi with rfl
        exact hcf
    have hjoin_ne : joinComma (items ++ [id]) ≠ "" :=
      joinComma_ne_empty (List.mem_append.mpr (Or.inr (List.mem_singleton.mpr rfl))) hne
    unfold listElems
    rw [if_neg (fun hb => hjoin_ne (eq_of_beq hb))]
    rw [show joinComma (items ++ [id]) = joinComma (items ++ [id]) from rfl,
      splitComma_joinComma hpieces (by simp)]
    exact List.mem_append.mpr (Or.inr (List.mem_singleton.mpr rfl))
  · rw [getList_setList_read_opp, getList_setList_same]
    set R := jsRemoveFirst (listElems (getList st (opposite list))) id with hR
    have hnotR : id ∉ R := hR ▸ not_mem_jsRemoveFirst hcount
    by_cases hj : joinComma R = ""
    · unfold listElems
      rw [if_pos (beq_iff_eq.mpr hj)]
      simp
    · have hRne : R ≠ [] := by
        intro h0
        rw [h0] at hj
        exact hj rfl
      have hpieces : ∀ x ∈ R, ',' ∉ x.data := by
        intro x hx
        exact mem_listElems_no_comma (mem_of_jsRemoveFirst (hR ▸ hx))
      unfold listElems
      rw [if_neg (fun hb => hj (eq_of_beq hb))]
      rw [splitComma_joinComma hpieces hRne]
      exact hnotR

/-- Witness for C6 (amended): moving `"7"` from the blacklist to the
whitelist leaves it exactly in the whitelist. -/
theorem addRemove_invariant_amended_w :
    ("7" : String) ≠ "" ∧ ',' ∉ ("7" : String).data ∧
      (listElems (getList stC6w (opposite ListType.whitelistedIds))).count "7" ≤ 1 ∧
      ("7" ∈ listElems (getList (addToXAndRemoveFromOpposite stC6w ListType.whitelistedIds
          "7") ListType.whitelistedIds) ∧
        "7" ∉ listElems (getList (addToXAndRemoveFromOpposite stC6w ListType.whitelistedIds
          "7") (opposite ListType.whitelistedIds))) :=
  ⟨by decide, by decide, by decide,
    addRemove_invariant_amended stC6w ListType.whitelistedIds "7" (by decide) (by decide)
      (by decide)⟩

/-! ## Claims about the snowflake time transform -/

/-- Counterexample for C5: the source computes
`parseInt(id) / 4194304 + DISCORD_EPOCH` with plain division and no
flooring step, so for the id `2097152` (half of `4194304`) the derived
time exceeds the floored value by one half. -/
theorem snowTime_not_floored :
    snowTime 2097152 ≠ (⌊(2097152 : ℚ) / 4194304⌋ : ℚ) + 1420070400000 := by
  unfold snowTime DISCORD_EPOCH
  norm_num

/-- C5 (amended): the derived time is `id / 4194304 + DISCORD_EPOCH` with
exact (unfloored) division; it coincides with
`floor(id / 4194304) + DISCORD_EPOCH` exactly when `4194304` divides the
id. -/
theorem snowTime_floor_iff (id : ℤ) :
    snowTime id = (⌊(id : ℚ) / 4194304⌋ : ℚ) + DISCORD_EPOCH ↔ (4194304 : ℤ) ∣ id := by
  unfold snowTime
  constructor
  · intro h
    have h2 : (id : ℚ)/4194304 = (⌊(id : ℚ)/4194304⌋ : ℚ) := add_right_cancel h
    rw [div_eq_iff (by norm_num : (4194304:ℚ) ≠ 0)] at h2
    have h3 : id = ⌊(id : ℚ)/4194304⌋ * 4194304 := by exact_mod_cast h2
    exact ⟨⌊(id : ℚ)/4194304⌋, by omega⟩
  · rintro ⟨k, rfl⟩
    have h4 : ((4194304 * k : ℤ) : ℚ) / 4194304 = (k : ℚ) := by
      push_cast
      exact mul_div_cancel_left₀ _ (by norm_num)
    rw [h4, Int.floor_intCast]

/-- Witness for C5 (amended): at the exact multiple `4194304` the floored
form agrees with the derived time. -/
theorem snowTime_floor_iff_w :
    snowTime 4194304 = (⌊((4194304 : ℤ) : ℚ) / 4194304⌋ : ℚ) + DISCORD_EPOCH :=
  (snowTime_floor_iff 4194304).mpr ⟨1, by norm_num⟩

/-! ## Claims about the reconciler -/

/-- C9: `reAddDeletedMessages` leaves the live list unmodified on every
early-return path: empty live list, empty deleted-id list, no deleted id
with a logged record (empty `savedIDs`), or a failed bound-index search —
an aborted call performs no partial mutation. -/
theorem reconcile_early_return (logged : ℤ → Option LoggedRecord) (messages : List Msg)
    (deleted : List ℤ) (cs ce : Bool)
    (h : messages = [] ∨ deleted = [] ∨ mkSavedIDs logged deleted = []
      ∨ lowBound ce (mkSavedIDs logged deleted)
          ((liveIDs messages).getLastD ⟨0, 0⟩).time = none
      ∨ highBound cs (mkSavedIDs logged deleted)
          ((liveIDs messages).headD ⟨0, 0⟩).time = none) :
    reAddDeletedMessages logged messages deleted cs ce = messages := by
  unfold reAddDeletedMessages
  split
  · rfl
  · next hA =>
    split
    · rfl
    · next hB =>
      split
      · rfl
      · next low heq1 =>
        split
        · rfl
        · next high heq2 =>
          rcases h with h | h | h | h | h
          · exact absurd (by simp [h]) hA
          · exact absurd (by simp [h]) hA
          · exact absurd (by simp [h]) hB
          · rw [h] at heq1
            cases heq1
          · rw [h] at heq2
            cases heq2

/-- Witness for C9: an empty deleted-id list leaves the live list alone. -/
theorem reconcile_early_return_w :
    reAddDeletedMessages logged7 [⟨0⟩] [] false false = [⟨0⟩] :=
  reconcile_early_return logged7 [⟨0⟩] [] false false (Or.inr (Or.inl rfl))

/-- One step of the splice loop inserts only messages whose ids are not yet
present, so distinctness of ids is preserved throughout the loop. -/
theorem reAddLoop_nodup (logged : ℤ → Option LoggedRecord)
    (hcoh : ∀ i r m, logged i = some r → r.message = some m → m.id = i) :
    ∀ (ts : List TimedId) (i : Nat) (msgs : List Msg),
      (msgs.map Msg.id).Nodup → ((reAddLoop logged ts i msgs).map Msg.id).Nodup := by
  intro ts
  induction ts with
  | nil =>
    intro i msgs h
    simpa [reAddLoop] using h
  | cons t rest ih =>
    intro i msgs h
    simp only [reAddLoop]
    split
    · exact ih _ _ h
    · next hany =>
      split
      · next r heq =>
        split
        · next m heqm =>
          apply ih
          have hmid : m.id = t.id := hcoh _ _ _ heq heqm
          have hnot : t.id ∉ msgs.map Msg.id := by
            intro hmem
            rcases List.mem_map.mp hmem with ⟨e, he, heid⟩
            exact hany (List.any_eq_true.mpr ⟨e, he, beq_iff_eq.mpr heid⟩)
          have hsplit : (spliceIns msgs i m).map Msg.id
              = (msgs.take i).map Msg.id ++ m.id :: (msgs.drop i).map Msg.id := by
            unfold spliceIns
            rw [List.map_append, List.map_cons]
          rw [hsplit]
          have h2 : ((msgs.take i).map Msg.id ++ m.id :: (msgs.drop i).map Msg.id).Perm
              (m.id :: msgs.map Msg.id) := by
            refine List.perm_middle.trans ?_
            rw [← List.map_append, List.take_append_drop]
          refine h2.nodup_iff.mpr (List.nodup_cons.mpr ⟨?_, h⟩)
          rw [hmid]
          exact hnot
        · exact ih _ _ h
      · exact ih _ _ h

/-- C8: a deleted id already present in the live list (compared by id) is
never inserted again: when the logged store is coherent (the cached body
stored under an id carries that id), a live list without duplicate ids
still has no duplicate ids after the call. -/
theorem reconcile_nodup_preserved (logged : ℤ → Option LoggedRecord) (messages : List Msg)
    (deleted : List ℤ) (cs ce : Bool)
    (hcoh : ∀ i r m, logged i = some r → r.message = some m → m.id = i)
    (h : (messages.map Msg.id).Nodup) :
    ((reAddDeletedMessages logged messages deleted cs ce).map Msg.id).Nodup := by
  unfold reAddDeletedMessages
  split
  · exact h
  · split
    · exact h
    · split
      · exact h
      · split
        · exact h
        · exact reAddLoop_nodup logged hcoh _ _ _ h

/-- Witness for C8: the concrete reconciliation scenario preserves
distinctness of message ids. -/
theorem reconcile_nodup_preserved_w :
    (∀ i r m, logged7 i = some r → r.message = some m → m.id = i) ∧
      (messages7.map Msg.id).Nodup ∧
      ((reAddDeletedMessages logged7 messages7 deleted7 false false).map Msg.id).Nodup := by
  have hcoh : ∀ i r m, logged7 i = some r → r.message = some m → m.id = i := by
    intro i r m h1 h2
    unfold logged7 at h1
    split at h1
    · next heq =>
      cases h1
      cases h2
      exact heq.symm
    · cases h1
  exact ⟨hcoh, by decide,
    reconcile_nodup_preserved logged7 messages7 deleted7 false false hcoh (by decide)⟩

/-- The snowflake transform evaluated at `idFor t` recovers exactly `t`. -/
theorem snowTime_idFor (t : ℤ) : snowTime (idFor t) = (t : ℚ) := by
  unfold snowTime idFor DISCORD_EPOCH
  push_cast
  rw [mul_div_cancel_right₀ _ (by norm_num : (4194304:ℚ) ≠ 0)]
  norm_num

/-- C7: with both channel bounds false, live messages with derived times
`[300, 200]` (newest first) and one deleted id with cached body and derived
time `250`, the reconciler splices the deleted message between the two
live messages, yielding the time order `[300, 250, 200]`. -/
theorem reconcile_splices_between :
    reAddDeletedMessages logged7 messages7 deleted7 false false
        = [⟨idFor 300⟩, ⟨idFor 250⟩, ⟨idFor 200⟩] ∧
      (reAddDeletedMessages logged7 messages7 deleted7 false false).map
          (fun m => snowTime m.id) = [300, 250, 200] := by
  have hlive : liveIDs messages7 = [⟨idFor 300, (300:ℚ)⟩, ⟨idFor 200, (200:ℚ)⟩] := by
    unfold liveIDs messages7
    rw [List.map_cons, List.map_cons, List.map_nil, snowTime_idFor, snowTime_idFor]
    norm_num
  have hsaved : mkSavedIDs logged7 deleted7 = [⟨idFor 250, (250:ℚ)⟩] := by
    unfold mkSavedIDs deleted7
    rw [show List.filter (fun id => (logged7 id).isSome) [idFor 250] = [idFor 250] from
      by decide]
    rw [List.map_cons, List.map_nil, snowTime_idFor]
    simp [stableSort, sInsert]
  have hlow : lowBound false [⟨idFor 250, (250:ℚ)⟩]
      ((([⟨idFor 300, (300:ℚ)⟩, ⟨idFor 200, (200:ℚ)⟩] : List TimedId).getLastD
        ⟨0, 0⟩).time) = some 0 := by
    unfold lowBound
    rw [if_neg (by simp)]
    rw [List.findIdx?_cons]
    norm_num
  have hhigh : highBound false [⟨idFor 250, (250:ℚ)⟩]
      ((([⟨idFor 300, (300:ℚ)⟩, ⟨idFor 200, (200:ℚ)⟩] : List TimedId).headD
        ⟨0, 0⟩).time) = some 0 := by
    unfold highBound findLastIdx
    rw [if_neg (by simp)]
    norm_num [List.findIdx?_cons]
  have hmain : reAddDeletedMessages logged7 messages7 deleted7 false false
      = [⟨idFor 300⟩, ⟨idFor 250⟩, ⟨idFor 200⟩] := by
    unfold reAddDeletedMessages
    rw [if_neg (by decide)]
    rw [hsaved, hlive]
    rw [if_neg (by simp)]
    rw [hlow, hhigh]
    norm_num [sliceJS, stableSort, sInsert, reAddLoop, spliceIns, logged7, messages7, idFor]
  refine ⟨hmain, ?_⟩
  rw [hmain]
  rw [List.map_cons, List.map_cons, List.map_cons, List.map_nil]
  rw [snowTime_idFor, snowTime_idFor, snowTime_idFor]
  norm_num

end MLP
